import Mathlib

/-!
Shallow embedding of `qutip/qip/device/modelprocessor.py`.

Python floats are modelled as exact rationals (`ℚ`) for the decomposer and
the rasterizer, and as reals (`ℝ`) for the 2π parameter scaling; NumPy
arrays are modelled as lists of rows together with explicit shape data.
-/

namespace ModelProc

/-- A gate instruction: `qutip.qip.circuit.Gate` as consumed by
`GateDecomposer.decompose`, which only reads `gate.name` and hands the whole
gate to the registered decomposition function. -/
structure Gate where
  name : String
  targets : List Nat
deriving DecidableEq, Repr

/-- A registered decomposition ("fragment") function for a single gate.
In the Python code it mutates `self.dt_list` and `self.coeff_list` by
appending; here it returns the two lists of appended entries
(durations appended to `dt_list`, coefficient rows appended to `coeff_list`). -/
abbrev Frag : Type := Gate → List ℚ × List (List ℚ)

/-- The `GateDecomposer` object: the registry `gate_decomps`
(a dict `{gate_name: decompose_function}`, modelled as a lookup function),
the construction parameters `N` and `num_ops`, and the mutable accumulator
attributes `dt_list` and `coeff_list`. -/
structure GateDecomposer where
  gate_decomps : String → Option Frag
  N : Nat
  num_ops : Nat
  dt_list : List ℚ
  coeff_list : List (List ℚ)

/-- A NumPy 2-d array: explicit shape `(nrows, ncols)` plus the row data. -/
structure NpMat where
  nrows : Nat
  ncols : Nat
  data : List (List ℚ)
deriving DecidableEq, Repr

/-- The gate loop of `decompose` (lines 353-356): walk the gates in order;
on the first gate whose name is not a key of `gate_decomps`, stop with the
`ValueError` message `"Unsupported gate %s" % gate.name`; otherwise invoke the
registered function, which appends its durations and coefficient rows to the
accumulators.  Returns the error (if any) together with the accumulator
state reached when the loop stopped. -/
def runGates (reg : String → Option Frag) :
    List Gate → List ℚ × List (List ℚ) → Option String × List ℚ × List (List ℚ)
  | [], st => (none, st)
  | g :: gs, (dts, rows) =>
    match reg g.name with
    | none => (some ("Unsupported gate " ++ g.name), dts, rows)
    | some f => runGates reg gs (dts ++ (f g).1, rows ++ (f g).2)

/-- Model of `np.vstack(coeff_list).T` (line 357).  `np.vstack` of an empty list raises
`ValueError: need at least one array to concatenate`; of ragged rows it raises
a dimension-mismatch `ValueError`.  On success the stacked array has shape
`(len(coeff_list), L)` where `L` is the common row length, so its transpose
has shape `(L, len(coeff_list))` with entry `(i, j)` equal to entry `i` of the
`j`-th stacked row. -/
def vstackT (rows : List (List ℚ)) : Except String NpMat :=
  match rows with
  | [] => .error "need at least one array to concatenate"
  | r :: rs =>
    if rs.all (fun x => x.length = r.length) then
      .ok ⟨r.length, rs.length + 1,
        (List.range r.length).map (fun i => (r :: rs).map (fun row => row.getD i 0))⟩
    else .error "all the input array dimensions must match exactly"

/-- The running-sum loop of lines 359-363: `tlist[i]` is the sum of
`dt_list[0..i]`, accumulated left to right starting from `t`. -/
def cumsum (t : ℚ) : List ℚ → List ℚ
  | [] => []
  | d :: ds => (t + d) :: cumsum (t + d) ds

/-- Model of `GateDecomposer.decompose` (lines 325-364).  Resets `dt_list` and
`coeff_list` to `[]`, runs the gate loop, stacks and transposes the
coefficient rows, and returns `np.hstack([[0], tlist])` with the cumulative
sums, paired with the object state after the call (the accumulators keep
whatever the loop appended, also when an error was raised). -/
def GateDecomposer.decompose (d : GateDecomposer) (gates : List Gate) :
    Except String (List ℚ × NpMat) × GateDecomposer :=
  let res := runGates d.gate_decomps gates ([], [])
  let d' : GateDecomposer := { d with dt_list := res.2.1, coeff_list := res.2.2 }
  match res.1 with
  | some msg => (.error msg, d')
  | none =>
    match vstackT res.2.2 with
    | .error msg => (.error msg, d')
    | .ok coeffs => (.ok ((0 : ℚ) :: cumsum 0 res.2.1, coeffs), d')

/-- The output of the decomposition function registered for one gate, `([], [])`
when the gate is unregistered.  Used to describe the accumulator contents. -/
def fragOut (reg : String → Option Frag) (g : Gate) : List ℚ × List (List ℚ) :=
  match reg g.name with
  | some f => f g
  | none => ([], [])

/-- Concatenated durations appended by the registered functions of `gs`. -/
def fragDts (reg : String → Option Frag) (gs : List Gate) : List ℚ :=
  (gs.map (fun g => (fragOut reg g).1)).flatten

/-- Concatenated coefficient rows appended by the registered functions of `gs`. -/
def fragRows (reg : String → Option Frag) (gs : List Gate) : List (List ℚ) :=
  (gs.map (fun g => (fragOut reg g).2)).flatten

/-- The fragment of the spec's worked example: duration `1.0`, coefficient
row `[3.0, 0.0]` (coefficient `3.0` on control index 0, `0.0` on control 1). -/
def fragX : Frag := fun _ => ([1], [[3, 0]])

/-- A 2-control decomposer whose registry maps the single name `"X"` to
`fragX`. -/
def dX : GateDecomposer :=
  { gate_decomps := fun s => if s = "X" then some fragX else none
    N := 2, num_ops := 2, dt_list := [], coeff_list := [] }

/-- A gate named `"X"`. -/
def gX : Gate := ⟨"X", [0]⟩

/-- A gate named `"Y"`, absent from `dX`'s registry. -/
def gY : Gate := ⟨"Y", [0]⟩

/-- A 2-control decomposer whose single gate `"G"` appends one segment with
the asymmetric coefficient row `[3, 7]`: control 0 gets `3`, control 1 gets
`7`. -/
def dG : GateDecomposer :=
  { gate_decomps := fun s => if s = "G" then some (fun _ => ([1], [[3, 7]])) else none
    N := 2, num_ops := 2, dt_list := [], coeff_list := [] }

/-! ## `ModelProcessor._para_list` (lines 136-143)

The Python argument is dispatched on `isinstance(para, numbers.Real)` first,
then `isinstance(para, Iterable)`; anything else falls through both branches
(so the function returns `None`).  The three classes of arguments are
modelled as an inductive type; a complex scalar is the claims' example of an
argument that is neither a `numbers.Real` nor an `Iterable`.  The numeric
constant `np.pi` is taken as an explicit parameter `np_pi` (the code holds it
as a fixed floating-point constant), which keeps the definition executable. -/

/-- Argument classes of `_para_list`. -/
inductive Para where
  | scalar (r : ℚ)
  | iter (l : List ℚ)
  | cplx (re im : ℚ)

/-- Model of `ModelProcessor._para_list(para, N)`: a real scalar is broadcast,
`[para * 2 * np.pi] * N`; an iterable is mapped,
`[c * 2 * np.pi for c in para]`; otherwise the function body ends without a
`return` statement, i.e. it returns `None`. -/
def _para_list (np_pi : ℚ) (para : Para) (N : Nat) : Option (List ℚ) :=
  match para with
  | .scalar r => some (List.replicate N (r * 2 * np_pi))
  | .iter l => some (l.map (fun c => c * 2 * np_pi))
  | .cplx _ _ => none

/-! ## `ModelProcessor.set_up_params` (lines 145-154) and the `params`
setter (lines 160-162) -/

/-- Python error classes raised on this path: the `NotImplementedError` of
the base-class body, and the `TypeError` of call-argument binding. -/
inductive PyError where
  | notImplementedError (msg : String)
  | typeError (msg : String)
deriving DecidableEq, Repr

/-- The message of the `NotImplementedError` raised by the base-class
`set_up_params`. -/
def not_implemented_msg : String := "Parameters should be defined in subclass."

/-- Model of `ModelProcessor.set_up_params`: the base-class body is a single
unconditional `raise NotImplementedError(...)`. -/
def set_up_params : Except PyError Unit :=
  .error (.notImplementedError not_implemented_msg)

/-- The `params` property setter: `self.set_up_params(**par)` (line 162).
Python first binds the keyword dictionary `par` against the signature
`def set_up_params(self)` (line 145), which accepts no keyword parameters:
a nonempty dictionary raises
`TypeError: set_up_params() got an unexpected keyword argument '<k>'` at the
call site, before the body runs; only the empty dictionary reaches the body
of `set_up_params`. -/
def params_setter (par : List (String × ℚ)) : Except PyError Unit :=
  match par with
  | [] => set_up_params
  | (k, _) :: _ =>
    .error (.typeError ("set_up_params() got an unexpected keyword argument " ++ k))

/-! ## `ModelProcessor.pulse_matrix` (lines 219-252)

The raster `u = np.zeros((n_ops, n_t))` is modelled as an entry function
`Nat → Nat → ℚ` (row, column ↦ value) together with the explicit shape
`(n_ops, n_t)`; indices outside the shape are junk that no theorem reads.
`H_u` is `self.coeffs.T` from `get_ops_and_u`, so `H_u n m` is the stored
coefficient of control `m` on time-segment `n`. -/

/-- The raster step `dt = 0.01` of `pulse_matrix`. -/
def rasterDt : ℚ := 1 / 100

/-- Model of `diff_tlist = self.tlist[1:] - self.tlist[:-1]`: consecutive differences
of the breakpoints, i.e. the segment durations. -/
def diff_tlist (tl : List ℚ) : List ℚ :=
  List.zipWith (fun b a => b - a) tl.tail tl

/-- Model of `t_idx_len = int(np.floor(diff_tlist[n] / dt))`: the number of raster
steps of one segment. -/
def segLen (d : ℚ) : Nat := (Int.floor (d / rasterDt)).toNat

/-- The per-segment raster lengths of a breakpoint list. -/
def segLens (tl : List ℚ) : List Nat := (diff_tlist tl).map segLen

/-- The segment loop of `pulse_matrix` (lines 240-250): for segment `n` of
duration `d`, every row `m` of `u` gets
`u[m, t_start:(t_start + t_idx_len)] = np.ones(t_idx_len) * H_u[n, m]`,
then `t_start += t_idx_len`. -/
def pulseLoop (H_u : Nat → Nat → ℚ) :
    List ℚ → Nat → Nat → (Nat → Nat → ℚ) → Nat → Nat → ℚ
  | [], _, _, u => u
  | d :: ds, t_start, n, u =>
    pulseLoop H_u ds (t_start + segLen d) (n + 1)
      (fun m i => if t_start ≤ i ∧ i < t_start + segLen d then H_u n m else u m i)

/-- A NumPy 2-d raster array: shape plus entry function. -/
structure RasterU where
  n_ops : Nat
  n_t : Nat
  entry : Nat → Nat → ℚ

/-- Model of `ModelProcessor.pulse_matrix`, restricted to the raster array `u` it
builds: `n_t = int(np.ceil(t_tot / dt))` columns, `u` initialised to zeros and
filled by the segment loop starting at `t_start = 0`. -/
def pulse_matrix (tlist : List ℚ) (H_u : Nat → Nat → ℚ) (n_ops : Nat) : RasterU :=
  let diffs := diff_tlist tlist
  let t_tot := diffs.sum
  let n_t := (Int.ceil (t_tot / rasterDt)).toNat
  ⟨n_ops, n_t, pulseLoop H_u diffs 0 0 (fun _ _ => 0)⟩

/-! ## Helper lemmas -/

theorem cumsum_length (t : ℚ) (l : List ℚ) : (cumsum t l).length = l.length := by
  induction l generalizing t with
  | nil => rfl
  | cons d ds ih => simp [cumsum, ih]

theorem fragDts_cons (reg : String → Option Frag) (g : Gate) (gs : List Gate) :
    fragDts reg (g :: gs) = (fragOut reg g).1 ++ fragDts reg gs := by
  simp [fragDts]

theorem fragRows_cons (reg : String → Option Frag) (g : Gate) (gs : List Gate) :
    fragRows reg (g :: gs) = (fragOut reg g).2 ++ fragRows reg gs := by
  simp [fragRows]

theorem runGates_append (reg : String → Option Frag) (pre rest : List Gate)
    (dts : List ℚ) (rows : List (List ℚ))
    (h : ∀ g ∈ pre, (reg g.name).isSome) :
    runGates reg (pre ++ rest) (dts, rows) =
      runGates reg rest (dts ++ fragDts reg pre, rows ++ fragRows reg pre) := by
  induction pre generalizing dts rows with
  | nil => simp [fragDts, fragRows]
  | cons g gs ih =>
    have hg : (reg g.name).isSome := h g (by simp)
    obtain ⟨f, hf⟩ := Option.isSome_iff_exists.mp hg
    have step : runGates reg ((g :: gs) ++ rest) (dts, rows) =
        runGates reg (gs ++ rest) (dts ++ (f g).1, rows ++ (f g).2) := by
      simp [runGates, hf]
    rw [step, ih _ _ (fun g' hg' => h g' (by simp [hg']))]
    rw [fragDts_cons, fragRows_cons]
    have hfrag : fragOut reg g = f g := by simp [fragOut, hf]
    rw [hfrag, List.append_assoc, List.append_assoc]

theorem runGates_balanced (reg : String → Option Frag) (gs : List Gate)
    (h : ∀ g ∈ gs, ∀ f, reg g.name = some f → ((f g).1).length = ((f g).2).length) :
    ∀ dts rows dts' rows', runGates reg gs (dts, rows) = (none, dts', rows') →
      dts.length = rows.length → dts'.length = rows'.length := by
  induction gs with
  | nil =>
    intro dts rows dts' rows' hrun hlen
    simp [runGates] at hrun
    rw [← hrun.1, ← hrun.2]
    exact hlen
  | cons g gs' ih =>
    intro dts rows dts' rows' hrun hlen
    cases hf : reg g.name with
    | none => simp [runGates, hf] at hrun
    | some f =>
      simp only [runGates, hf] at hrun
      have hbal := h g (by simp) f hf
      exact ih (fun g' hg' f' hf' => h g' (by simp [hg']) f' hf') _ _ _ _ hrun
        (by simp [hbal, hlen])

theorem vstackT_ok_shape (rows : List (List ℚ)) (M : NpMat)
    (h : vstackT rows = .ok M) :
    M.ncols = rows.length ∧ (∀ r ∈ rows, r.length = M.nrows) ∧
      M.data = (List.range M.nrows).map (fun i => rows.map (fun row => row.getD i 0)) := by
  match rows with
  | [] => simp [vstackT] at h
  | r :: rs =>
    rw [vstackT] at h
    by_cases hrect : rs.all (fun x => x.length = r.length)
    · rw [if_pos hrect] at h
      cases h
      refine ⟨by simp, ?_, by simp⟩
      intro x hx
      rcases List.mem_cons.mp hx with rfl | hx2
      · simp
      · simpa using (List.all_eq_true.mp hrect x hx2)
    · rw [if_neg hrect] at h; exact absurd h (by simp)

theorem getD_map_getD {α β : Type} (l : List α)
    (f : α → β) (k : Nat) (dα : α) (dβ : β) (h : k < l.length) :
    (l.map f).getD k dβ = f (l.getD k dα) := by
  induction l generalizing k with
  | nil => simp at h
  | cons a l' ih =>
    cases k with
    | zero => simp
    | succ k' => simpa using ih k' (by simpa using h)

theorem getD_range_map {β : Type} (L i : Nat) (f : Nat → β) (dβ : β) (h : i < L) :
    ((List.range L).map f).getD i dβ = f i := by
  rw [getD_map_getD (List.range L) f i 0 dβ (by simpa using h)]
  congr 1
  have h2 : i < (List.range L).length := by simpa using h
  rw [List.getD_eq_getElem (List.range L) 0 h2]
  exact List.getElem_range i h2

theorem decompose_acc_indep (d : GateDecomposer) (a : List ℚ)
    (b : List (List ℚ)) (gs : List Gate) :
    ({ d with dt_list := a, coeff_list := b } : GateDecomposer).decompose gs =
      d.decompose gs := rfl

theorem rasterDt_pos : (0 : ℚ) < rasterDt := by norm_num [rasterDt]

theorem segLen_mul_le (d : ℚ) (h : 0 ≤ d) : (segLen d : ℚ) * rasterDt ≤ d := by
  have hdt := rasterDt_pos
  have hx : 0 ≤ d / rasterDt := div_nonneg h hdt.le
  have hfl : (0 : ℤ) ≤ Int.floor (d / rasterDt) := Int.floor_nonneg.mpr hx
  have hcast : (segLen d : ℚ) = ((Int.floor (d / rasterDt) : ℤ) : ℚ) := by
    rw [segLen]
    exact_mod_cast congrArg (fun z : ℤ => (z : ℚ)) (Int.toNat_of_nonneg hfl)
  rw [hcast]
  calc ((Int.floor (d / rasterDt) : ℤ) : ℚ) * rasterDt
      ≤ (d / rasterDt) * rasterDt :=
        mul_le_mul_of_nonneg_right (Int.floor_le _) hdt.le
    _ = d := div_mul_cancel₀ d (ne_of_gt hdt)

theorem widths_sum_eq (l : List ℚ) :
    (l.map (fun d => (segLen d : ℚ) * rasterDt)).sum =
      ((l.map segLen).sum : ℚ) * rasterDt := by
  induction l with
  | nil => simp
  | cons d ds ih => simp [ih, add_mul]

theorem widths_sum_le (l : List ℚ) (h : ∀ d ∈ l, 0 ≤ d) :
    (l.map (fun d => (segLen d : ℚ) * rasterDt)).sum ≤ l.sum := by
  induction l with
  | nil => simp
  | cons d ds ih =>
    simp only [List.map_cons, List.sum_cons]
    exact add_le_add (segLen_mul_le d (h d (by simp)))
      (ih (fun x hx => h x (by simp [hx])))

theorem segLens_sum_le (l : List ℚ) (h : ∀ d ∈ l, 0 ≤ d) :
    (l.map segLen).sum ≤ (Int.ceil (l.sum / rasterDt)).toNat := by
  have hdt := rasterDt_pos
  have h1 : ((l.map segLen).sum : ℚ) * rasterDt ≤ l.sum := by
    rw [← widths_sum_eq]; exact widths_sum_le l h
  have h2 : ((l.map segLen).sum : ℚ) ≤ l.sum / rasterDt :=
    (le_div_iff₀ hdt).mpr h1
  have h3 : ((l.map segLen).sum : ℚ) ≤ ((Int.ceil (l.sum / rasterDt) : ℤ) : ℚ) :=
    le_trans h2 (Int.le_ceil _)
  revert h3
  generalize (l.map segLen).sum = s
  intro h3
  have h4 : ((s : ℕ) : ℤ) ≤ Int.ceil (l.sum / rasterDt) := by exact_mod_cast h3
  have h5 : (0 : ℤ) ≤ Int.ceil (l.sum / rasterDt) :=
    le_trans (by positivity) h4
  exact (Int.le_toNat h5).mpr h4

theorem pulseLoop_lt_start (H_u : Nat → Nat → ℚ) (ds : List ℚ)
    (t_start n : Nat) (u : Nat → Nat → ℚ) (m i : Nat) (h : i < t_start) :
    pulseLoop H_u ds t_start n u m i = u m i := by
  induction ds generalizing t_start n u with
  | nil => rfl
  | cons d ds' ih =>
    rw [pulseLoop, ih (t_start + segLen d) (n + 1) _ (by omega)]
    exact if_neg (by omega)

theorem pulseLoop_seg (H_u : Nat → Nat → ℚ) (ds : List ℚ) :
    ∀ (j t_start n : Nat) (u : Nat → Nat → ℚ) (m k : Nat),
      j < ds.length → k < (ds.map segLen).getD j 0 →
      pulseLoop H_u ds t_start n u m (t_start + ((ds.map segLen).take j).sum + k) =
        H_u (n + j) m := by
  induction ds with
  | nil => intro j _ _ _ _ _ hj _; simp at hj
  | cons d ds' ih =>
    intro j t_start n u m k hj hk
    cases j with
    | zero =>
      have hk' : k < segLen d := by simpa using hk
      rw [pulseLoop,
        pulseLoop_lt_start _ _ _ _ _ _ _ (by simpa using hk'),
        show (t_start + ((List.map segLen (d :: ds')).take 0).sum + k) =
          t_start + k by simp]
      have hc : t_start ≤ t_start + k ∧ t_start + k < t_start + segLen d := by omega
      rw [if_pos hc, Nat.add_zero]
    | succ j' =>
      have hpos : t_start + (((d :: ds').map segLen).take (j' + 1)).sum + k =
          (t_start + segLen d) + ((ds'.map segLen).take j').sum + k := by
        simp [List.take_succ_cons]; omega
      rw [pulseLoop, hpos,
        ih j' (t_start + segLen d) (n + 1) _ m k (by simpa using hj)
          (by simpa using hk)]
      congr 1
      omega

theorem decompose_snd (d : GateDecomposer) (gates : List Gate) :
    (d.decompose gates).2 =
      { d with dt_list := (runGates d.gate_decomps gates ([], [])).2.1,
               coeff_list := (runGates d.gate_decomps gates ([], [])).2.2 } := by
  unfold GateDecomposer.decompose
  rcases hres : runGates d.gate_decomps gates ([], []) with ⟨err, dts, rows⟩
  cases err with
  | none => cases hv : vstackT rows <;> simp [hres, hv]
  | some msg => simp [hres]

theorem decompose_ok_inv (d : GateDecomposer) (gates : List Gate)
    (tl : List ℚ) (M : NpMat) (h : (d.decompose gates).1 = .ok (tl, M)) :
    vstackT (d.decompose gates).2.coeff_list = .ok M ∧
    tl = 0 :: cumsum 0 (d.decompose gates).2.dt_list ∧
    runGates d.gate_decomps gates ([], []) =
      (none, (d.decompose gates).2.dt_list, (d.decompose gates).2.coeff_list) := by
  rw [decompose_snd]
  unfold GateDecomposer.decompose at h
  rcases hres : runGates d.gate_decomps gates ([], []) with ⟨err, dts, rows⟩
  rw [hres] at h
  dsimp only at h ⊢
  cases err with
  | some msg => simp at h
  | none =>
    cases hv : vstackT rows with
    | error msg => rw [hv] at h; simp at h
    | ok M0 =>
      rw [hv] at h
      dsimp only at h
      simp only [Except.ok.injEq, Prod.mk.injEq] at h
      obtain ⟨htl, hM⟩ := h
      subst hM
      exact ⟨rfl, htl.symm, rfl⟩

/-! ## Claim theorems -/

/-- C1 (counterexample): decomposing the empty gate sequence on the concrete
2-control decomposer `dX` does not return normally with breakpoints `[0]` and
a `2 × 0` coefficient matrix — it raises the `ValueError` of
`np.vstack([])`, because line 357 stacks the empty `coeff_list`. -/
theorem C1_counterexample :
    (dX.decompose []).1 = .error "need at least one array to concatenate" := rfl

/-- C1 (amended): for every decomposer, decomposing an empty gate sequence
raises the `np.vstack` error "need at least one array to concatenate" (no
breakpoint array or coefficient matrix is returned), and the accumulators
are left reset to empty. -/
theorem C1_empty_decompose_raises (d : GateDecomposer) :
    d.decompose [] = (.error "need at least one array to concatenate",
      { d with dt_list := [], coeff_list := [] }) := rfl

/-- C5: with the registry mapping `"X"` to a fragment of duration `1.0` and
coefficient row `[3.0, 0.0]`, decomposing `["X", "X"]` on the 2-control
decomposer `dX` yields `tlist = [0, 1, 2]` and the `2 × 2` coefficient matrix
`[[3, 3], [0, 0]]`. -/
theorem C5_two_X_gates :
    dX.num_ops = 2 ∧
    (dX.decompose [gX, gX]).1 = .ok ([0, 1, 2], ⟨2, 2, [[3, 3], [0, 0]]⟩) := by
  refine ⟨rfl, ?_⟩
  norm_num [GateDecomposer.decompose, runGates, vstackT, cumsum, dX, gX, fragX,
    List.range_succ]

/-- C2 (counterexample): on `dG` one gate contributes one time-segment with
coefficient row `[3, 7]` over the two controls, yet the returned matrix is
`[[3], [7]]` of shape `2 × 1`: it has `2 ≠ 1` rows although there is exactly
one time-segment, so rows of the returned matrix do not correspond to
time-segments (they correspond to control operators). -/
theorem C2_counterexample :
    (dG.decompose [⟨"G", [0]⟩]).1 = .ok ([0, 1], ⟨2, 1, [[3], [7]]⟩) ∧
    (2 : Nat) ≠ 1 := by
  constructor
  · simp [GateDecomposer.decompose, runGates, vstackT, cumsum, dG,
      List.range_succ]
  · decide

/-- C2 (amended): on success, the stacked accumulated rows are transposed so
that in the returned matrix the columns correspond to the accumulated
time-segment rows (`ncols` = number of accumulated rows, entry `(i, k)` is
component `i` of the `k`-th accumulated row) and the rows correspond to the
per-row components, i.e. the control operators (each accumulated row has
length `nrows`). -/
theorem C2_transposed_layout (d : GateDecomposer) (gates : List Gate)
    (tl : List ℚ) (M : NpMat)
    (h : (d.decompose gates).1 = .ok (tl, M)) :
    M.ncols = (d.decompose gates).2.coeff_list.length ∧
    (∀ r ∈ (d.decompose gates).2.coeff_list, r.length = M.nrows) ∧
    ∀ i k, i < M.nrows → k < M.ncols →
      (M.data.getD i []).getD k 0 =
        ((d.decompose gates).2.coeff_list.getD k []).getD i 0 := by
  obtain ⟨hv, -, -⟩ := decompose_ok_inv d gates tl M h
  obtain ⟨hcols, hrect, hdata⟩ := vstackT_ok_shape _ M hv
  refine ⟨hcols, hrect, ?_⟩
  intro i k hi hk
  rw [hdata, getD_range_map M.nrows i _ [] hi,
    getD_map_getD _ _ k [] 0 (by rw [hcols] at hk; exact hk)]

/-- C8 (counterexample): assigning the nonempty dictionary `{"x": 1}` to the
`params` property raises `TypeError` at keyword binding (the base
`set_up_params` takes no keyword parameters), not the claimed
`NotImplementedError`. -/
theorem C8_counterexample :
    params_setter [("x", 1)] =
      .error (.typeError "set_up_params() got an unexpected keyword argument x") ∧
    params_setter [("x", 1)] ≠
      .error (.notImplementedError not_implemented_msg) := by
  refine ⟨rfl, ?_⟩
  simp [params_setter]

/-- C8 (amended): every direct invocation of the base-class `set_up_params`
raises `NotImplementedError` unconditionally; every assignment to the
`params` property also fails unconditionally — with that
`NotImplementedError` when the assigned dictionary is empty, and with a
keyword-binding `TypeError` naming the first key when it is nonempty. -/
theorem C8_set_up_params_abstract :
    set_up_params = .error (.notImplementedError not_implemented_msg) ∧
    params_setter [] = .error (.notImplementedError not_implemented_msg) ∧
    (∀ (k : String) (v : ℚ) (rest : List (String × ℚ)),
      params_setter ((k, v) :: rest) =
        .error (.typeError ("set_up_params() got an unexpected keyword argument " ++ k))) ∧
    ∀ par, ∃ e, params_setter par = .error e := by
  refine ⟨rfl, rfl, fun k v rest => rfl, ?_⟩
  intro par
  match par with
  | [] => exact ⟨_, rfl⟩
  | (k, v) :: rest => exact ⟨_, rfl⟩

/-- C6: for a real scalar `p`, `_para_list` returns a list of length `N`
whose entries all equal `p * 2 * np.pi`; for an iterable it returns the
element-wise `2π`-scaled list, preserving length and order (entry `i` of the
result is entry `i` of the input, scaled). -/
theorem C6_para_list_scaling (np_pi p : ℚ) (l : List ℚ) (N : Nat) :
    _para_list np_pi (.scalar p) N = some (List.replicate N (p * 2 * np_pi)) ∧
    (List.replicate N (p * 2 * np_pi)).length = N ∧
    (∀ x ∈ List.replicate N (p * 2 * np_pi), x = p * 2 * np_pi) ∧
    _para_list np_pi (.iter l) N = some (l.map (fun c => c * 2 * np_pi)) ∧
    (l.map (fun c => c * 2 * np_pi)).length = l.length ∧
    ∀ i : Nat, (l.map (fun c => c * 2 * np_pi))[i]? =
      (l[i]?).map (fun c => c * 2 * np_pi) := by
  refine ⟨rfl, List.length_replicate N _, ?_, rfl, List.length_map l _, ?_⟩
  · intro x hx
    exact List.eq_of_mem_replicate hx
  · intro i
    exact List.getElem?_map _ l i

/-- C6 witness: concrete instance with `np.pi` taken as `3`, scalar `2`,
`N = 2`: the broadcast entry is `2 * 2 * 3`. -/
theorem C6_para_list_scaling_witness :
    _para_list 3 (.scalar 2) 2 = some (List.replicate 2 ((2 : ℚ) * 2 * 3)) ∧
    ((2 : ℚ) * 2 * 3) ∈ List.replicate 2 ((2 : ℚ) * 2 * 3) ∧
    ((2 : ℚ) * 2 * 3) = 2 * 2 * 3 := by
  have hc := C6_para_list_scaling 3 2 [4] 2
  exact ⟨hc.1, by simp, hc.2.2.1 _ (by simp)⟩

/-- C10: an argument that is neither a `numbers.Real` nor an `Iterable`
(e.g. a complex scalar) falls through both `isinstance` branches, so
`_para_list` returns `None` without raising. -/
theorem C10_para_list_falls_through (np_pi re im : ℚ) (N : Nat) :
    _para_list np_pi (.cplx re im) N = none := rfl

/-- C3: if the gates before `g` are all registered and `g`'s name is not a
key of `gate_decomps`, `decompose` raises `ValueError` with the message
"Unsupported gate <name>" identifying the offending gate — no timeline is
returned — and, since each `decompose` call resets `dt_list` and
`coeff_list` to `[]` first, the leftover accumulators have no effect on any
subsequent call. -/
theorem C3_unsupported_gate (d : GateDecomposer) (pre : List Gate) (g : Gate)
    (post : List Gate)
    (hpre : ∀ g2 ∈ pre, (d.gate_decomps g2.name).isSome)
    (hg : d.gate_decomps g.name = none) :
    (d.decompose (pre ++ g :: post)).1 = .error ("Unsupported gate " ++ g.name) ∧
    ∀ (a : List ℚ) (b : List (List ℚ)) (gs : List Gate),
      ({ d with dt_list := a, coeff_list := b } : GateDecomposer).decompose gs =
        d.decompose gs := by
  constructor
  · have hrun : runGates d.gate_decomps (pre ++ g :: post) ([], []) =
        (some ("Unsupported gate " ++ g.name), fragDts d.gate_decomps pre,
          fragRows d.gate_decomps pre) := by
      rw [runGates_append d.gate_decomps pre (g :: post) [] [] hpre]
      simp [runGates, hg]
    simp [GateDecomposer.decompose, hrun]
  · intro a b gs
    exact decompose_acc_indep d a b gs

/-- C3 witness: on `dX`, the sequence `["X", "Y"]` fails with
"Unsupported gate Y", and stale accumulators do not change a later call. -/
theorem C3_unsupported_gate_witness :
    (∀ g2 ∈ [gX], (dX.gate_decomps g2.name).isSome) ∧
    dX.gate_decomps gY.name = none ∧
    (dX.decompose ([gX] ++ gY :: [])).1 = .error ("Unsupported gate " ++ gY.name) ∧
    ({ dX with dt_list := [5], coeff_list := [[1]] } : GateDecomposer).decompose [gX] =
      dX.decompose [gX] := by
  have h1 : ∀ g2 ∈ [gX], (dX.gate_decomps g2.name).isSome := by
    intro g2 hg2
    have hg : g2 = gX := by simpa using hg2
    subst hg
    simp [dX, gX]
  have h2 : dX.gate_decomps gY.name = none := by simp [dX, gY]
  have hc := C3_unsupported_gate dX [gX] gY [] h1 h2
  exact ⟨h1, h2, hc.1, hc.2 [5] [[1]] [gX]⟩

/-- C9: when `decompose` fails on the unsupported gate `g`, the fragment
functions of all gates before `g` have run: the object's `dt_list` and
`coeff_list` hold exactly their appended entries after the exception, and
they stay there until the next `decompose` call, whose behaviour is the same
as with cleared accumulators. -/
theorem C9_partial_accumulators (d : GateDecomposer) (pre : List Gate)
    (g : Gate) (post : List Gate)
    (hpre : ∀ g2 ∈ pre, (d.gate_decomps g2.name).isSome)
    (hg : d.gate_decomps g.name = none) :
    (d.decompose (pre ++ g :: post)).1 = .error ("Unsupported gate " ++ g.name) ∧
    (d.decompose (pre ++ g :: post)).2.dt_list = fragDts d.gate_decomps pre ∧
    (d.decompose (pre ++ g :: post)).2.coeff_list = fragRows d.gate_decomps pre ∧
    ∀ gs : List Gate,
      ((d.decompose (pre ++ g :: post)).2).decompose gs =
        ({ (d.decompose (pre ++ g :: post)).2 with
            dt_list := [], coeff_list := [] } : GateDecomposer).decompose gs := by
  have hrun : runGates d.gate_decomps (pre ++ g :: post) ([], []) =
      (some ("Unsupported gate " ++ g.name), fragDts d.gate_decomps pre,
        fragRows d.gate_decomps pre) := by
    rw [runGates_append d.gate_decomps pre (g :: post) [] [] hpre]
    simp [runGates, hg]
  refine ⟨by simp [GateDecomposer.decompose, hrun], ?_, ?_, ?_⟩
  · rw [decompose_snd, hrun]
  · rw [decompose_snd, hrun]
  · intro gs
    exact (decompose_acc_indep ((d.decompose (pre ++ g :: post)).2) [] [] gs).symm

/-- C9 witness: on `dX`, decomposing `["X", "Y", "X"]` fails and leaves the
first gate's appended duration `1` and coefficient row `[3, 0]` in the
accumulators; the next call behaves as if they were cleared. -/
theorem C9_partial_accumulators_witness :
    (∀ g2 ∈ [gX], (dX.gate_decomps g2.name).isSome) ∧
    dX.gate_decomps gY.name = none ∧
    (dX.decompose ([gX] ++ gY :: [gX])).1 = .error ("Unsupported gate " ++ gY.name) ∧
    (dX.decompose ([gX] ++ gY :: [gX])).2.dt_list = fragDts dX.gate_decomps [gX] ∧
    (dX.decompose ([gX] ++ gY :: [gX])).2.coeff_list = fragRows dX.gate_decomps [gX] ∧
    ((dX.decompose ([gX] ++ gY :: [gX])).2).decompose [gX] =
      ({ (dX.decompose ([gX] ++ gY :: [gX])).2 with
          dt_list := [], coeff_list := [] } : GateDecomposer).decompose [gX] := by
  have h1 : ∀ g2 ∈ [gX], (dX.gate_decomps g2.name).isSome := by
    intro g2 hg2
    have hg : g2 = gX := by simpa using hg2
    subst hg
    simp [dX, gX]
  have h2 : dX.gate_decomps gY.name = none := by simp [dX, gY]
  have hc := C9_partial_accumulators dX [gX] gY [gX] h1 h2
  exact ⟨h1, h2, hc.1, hc.2.1, hc.2.2.1, hc.2.2.2 [gX]⟩

/-- C4: on a successful call whose registered fragments append exactly one
duration per coefficient row, the returned breakpoint array is the running
sums of the duration list prefixed with `0`, and its length is the number of
coefficient-matrix columns plus one. -/
theorem C4_breakpoints (d : GateDecomposer) (gates : List Gate)
    (tl : List ℚ) (M : NpMat)
    (hbal : ∀ g ∈ gates, ∀ f, d.gate_decomps g.name = some f →
      ((f g).1).length = ((f g).2).length)
    (h : (d.decompose gates).1 = .ok (tl, M)) :
    tl = 0 :: cumsum 0 (d.decompose gates).2.dt_list ∧
    tl.length = M.ncols + 1 := by
  obtain ⟨hv, htl, hrun⟩ := decompose_ok_inv d gates tl M h
  refine ⟨htl, ?_⟩
  obtain ⟨hcols, -, -⟩ := vstackT_ok_shape _ M hv
  have hlen : (d.decompose gates).2.dt_list.length =
      (d.decompose gates).2.coeff_list.length :=
    runGates_balanced d.gate_decomps gates hbal [] [] _ _ hrun rfl
  rw [htl, List.length_cons, cumsum_length, hlen, hcols]

/-- C4 witness: the two-`"X"` run on `dX` (balanced fragments) returns
`tlist = [0, 1, 2]` of length `2 + 1` for the `2 × 2` coefficient matrix. -/
theorem C4_breakpoints_witness :
    (∀ g ∈ [gX, gX], ∀ f, dX.gate_decomps g.name = some f →
      ((f g).1).length = ((f g).2).length) ∧
    (dX.decompose [gX, gX]).1 = .ok ([0, 1, 2], ⟨2, 2, [[3, 3], [0, 0]]⟩) ∧
    ([0, 1, 2] : List ℚ) = 0 :: cumsum 0 (dX.decompose [gX, gX]).2.dt_list ∧
    ([0, 1, 2] : List ℚ).length = (⟨2, 2, [[3, 3], [0, 0]]⟩ : NpMat).ncols + 1 := by
  have h1 : ∀ g ∈ [gX, gX], ∀ f, dX.gate_decomps g.name = some f →
      ((f g).1).length = ((f g).2).length := by
    intro g hg f hf
    have hgx : g = gX := by
      rcases List.mem_cons.mp hg with h | h
      · exact h
      · simpa using h
    subst hgx
    have hfx : fragX = f := by simpa [dX, gX] using hf
    subst hfx
    rfl
  have h2 : (dX.decompose [gX, gX]).1 = .ok ([0, 1, 2], ⟨2, 2, [[3, 3], [0, 0]]⟩) := by
    norm_num [GateDecomposer.decompose, runGates, vstackT, cumsum, dX, gX, fragX,
      List.range_succ]
  have hc := C4_breakpoints dX [gX, gX] [0, 1, 2] ⟨2, 2, [[3, 3], [0, 0]]⟩ h1 h2
  exact ⟨h1, h2, hc.1, hc.2⟩

/-- C2 witness (for the amended theorem): on the `dG` run, the returned
`2 × 1` matrix has one column per accumulated row, each accumulated row has
length `nrows = 2`, and entry `(i, k)` equals component `i` of accumulated
row `k`. -/
theorem C2_transposed_layout_witness :
    (dG.decompose [⟨"G", [0]⟩]).1 = .ok ([0, 1], ⟨2, 1, [[3], [7]]⟩) ∧
    ((⟨2, 1, [[3], [7]]⟩ : NpMat).ncols =
      (dG.decompose [⟨"G", [0]⟩]).2.coeff_list.length ∧
    (∀ r ∈ (dG.decompose [⟨"G", [0]⟩]).2.coeff_list,
      r.length = (⟨2, 1, [[3], [7]]⟩ : NpMat).nrows) ∧
    ∀ i k, i < (⟨2, 1, [[3], [7]]⟩ : NpMat).nrows →
      k < (⟨2, 1, [[3], [7]]⟩ : NpMat).ncols →
      ((⟨2, 1, [[3], [7]]⟩ : NpMat).data.getD i []).getD k 0 =
        ((dG.decompose [⟨"G", [0]⟩]).2.coeff_list.getD k []).getD i 0) := by
  have h : (dG.decompose [⟨"G", [0]⟩]).1 = .ok ([0, 1], ⟨2, 1, [[3], [7]]⟩) := by
    norm_num [GateDecomposer.decompose, runGates, vstackT, cumsum, dG,
      List.range_succ]
  exact ⟨h, C2_transposed_layout dG [⟨"G", [0]⟩] [0, 1] ⟨2, 1, [[3], [7]]⟩ h⟩

/-- The `H_u` of the C7 example: the transposed stored coefficient matrix
`[[5.0]]` (one control, one segment of coefficient `5.0`), zero outside its
`1 × 1` shape. -/
def Hu5 : Nat → Nat → ℚ := fun n m => if n = 0 ∧ m = 0 then 5 else 0

/-- C7: with raster step `0.01`, every timeline segment holds each control's
coefficient constant across `floor(segment_duration / 0.01)` raster steps
(position `sum of earlier segment lengths + k` of any raster row `m` holds
`H_u[n, m]` for `k` below segment `n`'s length), the rastered widths sum to
at most the total schedule duration (and fit in the `n_t` raster columns);
in particular for one segment of duration `1.0` and coefficient `5.0` the
raster row is exactly `100` entries all equal to `5.0`. -/
theorem C7_raster_truncation (tlist : List ℚ) (H_u : Nat → Nat → ℚ)
    (n_ops : Nat) (h : ∀ d ∈ diff_tlist tlist, 0 ≤ d) :
    (((diff_tlist tlist).map (fun d => (segLen d : ℚ) * rasterDt)).sum ≤
        (diff_tlist tlist).sum ∧
      (segLens tlist).sum ≤ (pulse_matrix tlist H_u n_ops).n_t ∧
      ∀ n m k, n < (segLens tlist).length → k < (segLens tlist).getD n 0 →
        (pulse_matrix tlist H_u n_ops).entry m (((segLens tlist).take n).sum + k) =
          H_u n m) ∧
    (pulse_matrix [0, 1] Hu5 1).n_t = 100 ∧
    ∀ i, i < 100 → (pulse_matrix [0, 1] Hu5 1).entry 0 i = 5 := by
  refine ⟨⟨widths_sum_le (diff_tlist tlist) h, ?_, ?_⟩, ?_, ?_⟩
  · have := segLens_sum_le (diff_tlist tlist) h
    simpa [pulse_matrix, segLens] using this
  · intro n m k hn hk
    have hp := pulseLoop_seg H_u (diff_tlist tlist) n 0 0 (fun _ _ => 0) m k
      (by simpa [segLens] using hn) (by simpa [segLens] using hk)
    simpa [pulse_matrix, segLens] using hp
  · norm_num [pulse_matrix, diff_tlist, rasterDt]
    rfl
  · intro i hi
    have hseg : segLen ((1 : ℚ) - 0) = 100 := by
      norm_num [segLen, rasterDt]
      rfl
    have hd : diff_tlist [(0 : ℚ), 1] = [1 - 0] := rfl
    show pulseLoop Hu5 (diff_tlist [0, 1]) 0 0 (fun _ _ => 0) 0 i = 5
    rw [hd]
    simp only [pulseLoop, hseg]
    rw [if_pos (by omega)]
    simp [Hu5]

/-- C7 witness: the nonnegativity hypothesis holds for the example timeline
`[0, 1]`, whose raster has 100 columns, all carrying coefficient `5`. -/
theorem C7_raster_truncation_witness :
    (∀ d ∈ diff_tlist [(0 : ℚ), 1], 0 ≤ d) ∧
    (pulse_matrix [0, 1] Hu5 1).n_t = 100 ∧
    (pulse_matrix [0, 1] Hu5 1).entry 0 99 = 5 := by
  have h : ∀ d ∈ diff_tlist [(0 : ℚ), 1], 0 ≤ d := by
    intro d hd
    have : d = 1 - 0 := by simpa [diff_tlist] using hd
    subst this
    norm_num
  have hc := C7_raster_truncation [0, 1] Hu5 1 h
  exact ⟨h, hc.2.1, hc.2.2 99 (by norm_num)⟩

end ModelProc

